import Mathlib

/-!
# Verification development for the SecurePoL-Watermarking repository

Shallow embedding of the Proof-of-Learning verification engine
(`PoL/verify.py`) and of the spoofing attack (`spoof_cifar/spoof_attack3.py`).

Modelling conventions:
* floating point values (distances, thresholds, p-values, parameters) are
  modelled as rationals `ℚ`;
* a parameter set (the ordered flattening of a checkpoint's tensors) is a
  `List ℚ`;
* external collaborators that live outside the two embedded files
  (`train`, `utils.parameter_distance`, `utils.check_weights_initialization`,
  dataset loading, SHA-256) are taken as function parameters — the embedded
  code is the control flow of the two source files around them;
* Python exceptions are modelled with `Except String`, the error string
  naming the Python exception class.
-/

/-- A parameter set: the ordered flattened tensors of a checkpoint. -/
abbrev Params := List ℚ

/-- A distance metric name: `"1"`, `"2"`, `"inf"` or `"cos"`. -/
abbrev Metric := String

/-- The type of `utils.parameter_distance` (external to the embedded files):
given two parameter sets and the requested metric names, one scalar per
metric. -/
abbrev PDist := Params → Params → List Metric → List ℚ

/-- The type of the external `train` collaborator: starting parameters and a
slice of the index sequence produce the resulting parameters
(`train(lr, batch_size, 0, dataset, architecture, model_dir, sequence, half)`
with the hyperparameters fixed by the caller and absorbed). -/
abbrev Train := Params → List ℕ → Params

/-! ## Full Verifier: `verify_all` (PoL/verify.py lines 21-61) -/

/-- The interval start indices visited by `range(0, sequence.shape[0],
save_freq)`. -/
def intervalStarts (seqLen saveFreq : ℕ) : List ℕ :=
  (List.range ((seqLen + saveFreq - 1) / saveFreq)).map (· * saveFreq)

/-- The recorded end checkpoint step of the interval starting at `i`:
`model_step_{sequence.shape[0]}` when `i + save_freq >= sequence.shape[0]`,
else `model_step_{i + save_freq}` (verify.py lines 37-44). -/
def endStep (seqLen saveFreq i : ℕ) : ℕ :=
  if seqLen ≤ i + saveFreq then seqLen else i + saveFreq

/-- The index-sequence slice passed to `train` for the interval starting at
`i`: `sequence[i:]` for the last interval, `sequence[i:i+save_freq]`
otherwise (verify.py lines 39-44). -/
def intervalSlice (seq : List ℕ) (saveFreq i : ℕ) : List ℕ :=
  if seq.length ≤ i + saveFreq then seq.drop i else (seq.drop i).take saveFreq

/-- One interval of `verify_all`: replay from the recorded checkpoint at step
`i` over the interval's slice, and compare to the recorded end checkpoint
(`utils.parameter_distance(target_model, reproduce, order)`, verify.py
lines 36-46). -/
def verifyAllInterval (ckpt : ℕ → Params) (train : Train) (pd : PDist)
    (seq : List ℕ) (saveFreq : ℕ) (order : List Metric) (i : ℕ) : List ℚ :=
  pd (ckpt (endStep seq.length saveFreq i))
     (train (ckpt i) (intervalSlice seq saveFreq i)) order

/-- The `dist_list` accumulated by `verify_all`: row `j` holds, for metric
`order[j]`, the distance of every interval (verify.py lines 32-50). -/
def verifyAllDists (ckpt : ℕ → Params) (train : Train) (pd : PDist)
    (seq : List ℕ) (saveFreq : ℕ) (order : List Metric) : List (List ℚ) :=
  (List.range order.length).map fun j =>
    (intervalStarts seq.length saveFreq).map fun i =>
      (verifyAllInterval ckpt train pd seq saveFreq order i).getD j 0

/-- `np.sum(dist_list[k] > threshold[k])`: how many interval distances are
strictly above the metric's threshold (verify.py line 54). -/
def aboveThresholdCount (dists : List ℚ) (thr : ℚ) : ℕ :=
  (dists.filter fun d => thr < d).length

/-- The per-metric verdict of `verify_all`: the proof-of-learning is valid
for a metric exactly when no interval distance is above the threshold
(verify.py lines 55-60). -/
def metricValid (dists : List ℚ) (thr : ℚ) : Bool :=
  aboveThresholdCount dists thr == 0

/-- `verify_all(dir, lr, batch_size, dataset, architecture, save_freq, order,
threshold, half)` after `order`/`threshold` have been normalised to lists
(verify.py lines 26-30); raises `FileNotFoundError` when the model directory
is absent and `AssertionError` when the two lists disagree in length, and
otherwise returns `dist_list` normally — a threshold violation only changes
what is logged, never the control flow. -/
def verify_all (dirExists : Bool) (ckpt : ℕ → Params) (train : Train)
    (pd : PDist) (seq : List ℕ) (saveFreq : ℕ) (order : List Metric)
    (threshold : List ℚ) : Except String (List (List ℚ)) :=
  if dirExists = false then .error "FileNotFoundError"
  else if order.length ≠ threshold.length then .error "AssertionError"
  else .ok (verifyAllDists ckpt train pd seq saveFreq order)

/-! ## Top-Q Verifier: `verify_topq` (PoL/verify.py lines 64-130) -/

/-- The fixed inputs of one `verify_topq` run. -/
structure TopqEnv where
  seq : List ℕ
  saveFreq : ℕ
  order : List Metric
  ckpt : ℕ → Params
  train : Train
  pd : PDist

/-- `np.round(x).__int__()` on a rational: round half to even, as numpy
does. -/
def roundHalfEven (x : ℚ) : ℤ :=
  let f := ⌊x⌋
  let r := x - f
  if r < 1 / 2 then f
  else if 1 / 2 < r then f + 1
  else if f % 2 = 0 then f else f + 1

/-- `ckpt_per_epoch = sequence.shape[0] / epochs / save_freq` (float
division, verify.py line 75). -/
def ckptPerEpoch (seqLen epochs saveFreq : ℕ) : ℚ :=
  (seqLen : ℚ) / (epochs : ℚ) / (saveFreq : ℚ)

/-- `start = np.round(ckpt_per_epoch * epoch).__int__()` (verify.py
line 80). -/
def epochStart (seqLen epochs saveFreq e : ℕ) : ℕ :=
  (roundHalfEven (ckptPerEpoch seqLen epochs saveFreq * e)).toNat

/-- `end = np.round(ckpt_per_epoch * (epoch + 1)).__int__()` (verify.py
line 81). -/
def epochEnd (seqLen epochs saveFreq e : ℕ) : ℕ :=
  (roundHalfEven (ckptPerEpoch seqLen epochs saveFreq * (e + 1))).toNat

/-- The checkpoint step of `current_model` at ranking index `i` of an epoch
that starts at interval `start`: the initial `next_model` is
`model_step_{start * save_freq}` unconditionally, afterwards `current_model`
is the previous iteration's `next_model` (verify.py lines 83-89). -/
def phase1CurStep (seqLen saveFreq start i : ℕ) : ℕ :=
  if i = start then start * saveFreq
  else if seqLen ≤ i * saveFreq then seqLen else i * saveFreq

/-- The checkpoint step of `next_model` at ranking index `i`
(verify.py lines 86-89). -/
def phase1NextStep (seqLen saveFreq i : ℕ) : ℕ :=
  if seqLen ≤ (i + 1) * saveFreq then seqLen else (i + 1) * saveFreq

/-- Phase 1 of an epoch of `verify_topq`: the successive values of
`res = utils.parameter_distance(current_model, next_model, order)` for
`i in range(start, end)` (verify.py lines 84-93).  Both arguments are
recorded checkpoints; the external training function is never invoked. -/
def phase1Res (env : TopqEnv) (start fin : ℕ) : List (List ℚ) :=
  ((List.range (fin - start)).map (· + start)).map fun i =>
    env.pd (env.ckpt (phase1CurStep env.seq.length env.saveFreq start i))
           (env.ckpt (phase1NextStep env.seq.length env.saveFreq i)) env.order

/-- The Phase-1 `dist_list` matrix: row `j` collects `res[j]` over the
epoch's intervals (verify.py lines 82-95). -/
def phase1Dists (env : TopqEnv) (start fin : ℕ) : List (List ℚ) :=
  (List.range env.order.length).map fun j =>
    (phase1Res env start fin).map fun r => r.getD j 0

/-- Modelled from the spec (§4.4 Phase 1): the spec's description of the
ranking phase — "replay every interval in the epoch once (same replay cost
per interval as Full Verifier) and compute distances", i.e. the distance of
each interval between the end-state reproduced through the external training
function and the recorded end checkpoint.  To be compared with `phase1Res`,
the embedding of what the code actually does. -/
def phase1ResSpec (env : TopqEnv) (start fin : ℕ) : List (List ℚ) :=
  ((List.range (fin - start)).map (· + start)).map fun i =>
    env.pd (env.ckpt (phase1NextStep env.seq.length env.saveFreq i))
           (env.train (env.ckpt (phase1CurStep env.seq.length env.saveFreq start i))
                      (intervalSlice env.seq env.saveFreq (i * env.saveFreq)))
           env.order

/-- Indices `0, …, v.length - 1` sorted by value, descending (equal values
keep index order).  A deterministic realisation of the unspecified layout in
which `np.argpartition(·, -q)` places the indices of the `q` largest
entries. -/
def argsortDesc (v : List ℚ) : List ℕ :=
  (List.range v.length).insertionSort fun i j =>
    v.getD j 0 < v.getD i 0 ∨ (v.getD i 0 = v.getD j 0 ∧ i ≤ j)

/-- One row of `np.argpartition(dist_arr, -q, axis=1)[:, -q:]`: the indices
of the `q` largest entries of the row; `none` models the `ValueError` numpy
raises when `kth = -q` is out of the axis's range (`q > n`, or an empty
axis).  For `q = 0` the slice `[:, -0:]` keeps the whole row. -/
def topqRow (v : List ℚ) (q : ℕ) : Option (List ℕ) :=
  if v.length < max q 1 then none
  else if q = 0 then some (List.range v.length)
  else some ((argsortDesc v).take q)

/-- `np.union1d`: the sorted deduplicated union of two index arrays. -/
def union1d (a b : List ℕ) : List ℕ :=
  ((a ++ b).dedup).insertionSort (· ≤ ·)

/-- `reduce(np.union1d, list(topq_steps))` (verify.py line 99). -/
def unionAll : List (List ℕ) → List ℕ
  | [] => []
  | r :: rs => rs.foldl union1d r

/-- The union (across all requested metrics) of the top-`q` highest-distance
interval indices, as selected by Phase 2 when more than one metric is
requested (verify.py lines 96-99); `none` when `np.argpartition` rejects
`q`. -/
def topqSelect (dists : List (List ℚ)) (q : ℕ) : Option (List ℕ) :=
  (dists.mapM fun v => topqRow v q).map unionAll

/-- `step = int((start + ind) * save_freq)` when `ind` ranges over the rows
of a two-dimensional `topq_steps` (single-metric case, verify.py
lines 102-103): Python's `int()` converts a size-one array and raises
`TypeError` on any other size. -/
def pyIntStep (start saveFreq : ℕ) (row : List ℕ) : Option ℕ :=
  match row with
  | [x] => some ((start + x) * saveFreq)
  | _ => none

/-- One Phase-2 deep check at checkpoint step `step`: replay the interval
through the external training function and compare with the recorded end
checkpoint (verify.py lines 104-114). -/
def phase2Step (env : TopqEnv) (step : ℕ) : List ℚ :=
  if env.seq.length ≤ step + env.saveFreq then
    env.pd (env.ckpt env.seq.length)
           (env.train (env.ckpt step) (env.seq.drop step)) env.order
  else
    env.pd (env.ckpt (step + env.saveFreq))
           (env.train (env.ckpt step) ((env.seq.drop step).take env.saveFreq))
           env.order

/-- Rebuild a `dist_list` matrix (row per metric) from a list of
`parameter_distance` results (verify.py lines 101-118). -/
def distMatrix (numMetrics : ℕ) (res : List (List ℚ)) : List (List ℚ) :=
  (List.range numMetrics).map fun j => res.map fun r => r.getD j 0

/-- The Python value of a variable that is successively overwritten by the
`parameter_distance` results in `items`: the last item when the loop ran,
the prior value otherwise. -/
def lastRes (items : List (List ℚ)) (res : List (ℚ ⊕ List (List ℚ))) :
    List (ℚ ⊕ List (List ℚ)) :=
  if items.isEmpty then res else (items.getLastD []).map Sum.inl

/-- The value of the accumulator `res` of `verify_topq` after the epoch body
for epoch `e` has run, starting from the value `res` (verify.py lines
78-129): Phase 1 overwrites `res` with each ranking distance result, Phase 2
overwrites it with each deep-check result, and finally
`res.append(dist_list)` appends the epoch's Phase-2 distance matrix. -/
def epochBody (env : TopqEnv) (q epochs : ℕ)
    (res : List (ℚ ⊕ List (List ℚ))) (e : ℕ) :
    Except String (List (ℚ ⊕ List (List ℚ))) :=
  let start := epochStart env.seq.length epochs env.saveFreq e
  let fin := epochEnd env.seq.length epochs env.saveFreq e
  let p1 := phase1Res env start fin
  match (phase1Dists env start fin).mapM (fun v => topqRow v q) with
  | none => .error "ValueError"
  | some rows =>
    if 1 < env.order.length then
      let steps := (unionAll rows).map fun ind => (start + ind) * env.saveFreq
      let p2 := steps.map (phase2Step env)
      .ok (lastRes p2 (lastRes p1 res) ++
            [Sum.inr (distMatrix env.order.length p2)])
    else
      match rows.mapM (pyIntStep start env.saveFreq) with
      | none => .error "TypeError"
      | some steps =>
        let p2 := steps.map (phase2Step env)
        .ok (lastRes p2 (lastRes p1 res) ++
              [Sum.inr (distMatrix env.order.length p2)])

/-- `verify_topq(dir, lr, batch_size, dataset, architecture, save_freq,
order, threshold, epochs, q, half)` after `order`/`threshold` normalisation
(verify.py lines 64-130).  The return value is the final state of the
accumulator `res`, a Python list holding floats (from the last
`parameter_distance` result) and the appended final-epoch distance matrix. -/
def verify_topq (dirExists : Bool) (env : TopqEnv) (threshold : List ℚ)
    (epochs q : ℕ) : Except String (List (ℚ ⊕ List (List ℚ))) :=
  if dirExists = false then .error "FileNotFoundError"
  else if env.order.length ≠ threshold.length then .error "AssertionError"
  else (List.range epochs).foldlM (epochBody env q epochs) []

/-- The per-metric top-`q` interval index rows of epoch `e` (the rows of
`np.argpartition(dist_arr, -q, axis=1)[:, -q:]`), on the success path. -/
def epochRows (env : TopqEnv) (q epochs e : ℕ) : List (List ℕ) :=
  (phase1Dists env (epochStart env.seq.length epochs env.saveFreq e)
      (epochEnd env.seq.length epochs env.saveFreq e)).map fun v =>
    (topqRow v q).getD []

/-- The Phase-2 `parameter_distance` results of epoch `e` on the
multi-metric success path: the union of the per-metric top-`q` interval
indices, turned into checkpoint steps and deep-checked. -/
def epochP2 (env : TopqEnv) (q epochs e : ℕ) : List (List ℚ) :=
  ((unionAll (epochRows env q epochs e)).map fun ind =>
      (epochStart env.seq.length epochs env.saveFreq e + ind) *
        env.saveFreq).map
    (phase2Step env)

/-! ## Hash Verifier: `verify_hash` (PoL/verify.py lines 195-211)

The raw dataset is modelled as the list of the canonical string
representations `d.__str__()` of its samples, in storage order; the SHA-256
digest is an arbitrary function of the accumulated byte string. -/

/-- The string fed to `hashlib.sha256` by `verify_hash`: the code builds
`subset = torch.utils.data.Subset(trainset, sequence)` but then iterates
`subset.dataset.data` — the `data` array of the *underlying full dataset* —
so every raw sample is hashed in storage order and the loaded index
`sequence` never influences the digest (verify.py lines 203-206). -/
def verifyHashPayload (data : List String) (_sequence : List ℕ) : String :=
  String.join data

/-- Modelled from the spec (§4.6): the Hash Verifier contract — concatenate
the canonical string representation of exactly the samples addressed by the
Index Sequence, in recorded order.  To be compared with
`verifyHashPayload`, the embedding of what the code actually hashes. -/
def verifyHashPayloadSpec (data : List String) (sequence : List ℕ) : String :=
  String.join (sequence.map fun i => data.getD i "")

/-- `verify_hash(dir, dataset)`: load the index sequence and the recorded
hash, hash the payload, and report (via logging) whether the recorded hash
matches; a mismatch is a reported outcome, not an exception (verify.py
lines 195-211). -/
def verify_hash (dirExists : Bool) (sequence : List ℕ) (recordedHash : String)
    (data : List String) (sha256 : String → String) : Except String Bool :=
  if dirExists = false then .error "FileNotFoundError"
  else .ok (recordedHash == sha256 (verifyHashPayload data sequence))

/-! ## Initialization Verifier: `verify_initialization`
(PoL/verify.py lines 133-192)

Parameters are modelled as an ordered association list from parameter name
to an abstract tensor type `P`; `utils.check_weights_initialization` — the
external statistical test — is a function parameter producing a p-value. -/

/-- The argument shapes `utils.check_weights_initialization` is called with:
a single tensor, or a `[weight, bias]` pair for bias checks. -/
inductive CheckArg (P : Type) where
  | single (t : P)
  | pair (weight bias : P)

/-- Whether `n` occurs as a contiguous run inside `h`. -/
def charsIn (n : List Char) : List Char → Bool
  | [] => n.isEmpty
  | c :: t => n.isPrefixOf (c :: t) || charsIn n t

/-- Python's `needle in haystack` on strings. -/
def strIn (needle haystack : String) : Bool :=
  charsIn needle.toList haystack.toList

/-- The architecture-family dispatch of `verify_initialization` (verify.py
lines 140-148). -/
def modelTypeOf (modelName : String) : String :=
  if modelName ∈ ["resnet20", "resnet32", "resnet44", "resnet56",
                  "resnet110", "resnet1202"] then "resnet_cifar"
  else if modelName = "resnet50" then "resnet_cifar100"
  else if strIn "resnet" modelName then "resnet"
  else "default"

/-- `name.replace('bias', 'weight')` (verify.py lines 157, 166, 174, 182). -/
def biasToWeight (name : String) : String :=
  name.replace "bias" "weight"

/-- The p-value list accumulated by `verify_initialization`: each named
parameter contributes at most one call to the external
`check_weights_initialization` test, according to the architecture family's
name-pattern rules (verify.py lines 149-184).  `shapeLen t` models
`len(t.shape)` and `stateDict` models `net.state_dict()` lookup. -/
def initPList {P : Type} (modelName : String) (params : List (String × P))
    (stateDict : String → P) (shapeLen : P → ℕ)
    (checkW : CheckArg P → String → ℚ) : List ℚ :=
  let mt := modelTypeOf modelName
  if mt = "resnet" then
    params.filterMap fun np =>
      if strIn "weight" np.1 && strIn "conv" np.1 then
        some (checkW (.single np.2) "resnet")
      else if strIn "weight" np.1 && strIn "fc" np.1 then
        some (checkW (.single np.2) "default")
      else if strIn "bias" np.1 && (strIn "fc" np.1 || strIn "linear" np.1) then
        some (checkW (.pair (stateDict (biasToWeight np.1)) np.2) "default_bias")
      else none
  else if mt = "resnet_cifar100" then
    params.filterMap fun np =>
      if shapeLen np.2 = 4 then
        some (checkW (.single np.2) "default")
      else if strIn "weight" np.1 && strIn "fc" np.1 then
        some (checkW (.single np.2) "default")
      else if strIn "bias" np.1 && (strIn "fc" np.1 || strIn "linear" np.1) then
        some (checkW (.pair (stateDict (biasToWeight np.1)) np.2) "default_bias")
      else none
  else if mt = "resnet_cifar" then
    params.filterMap fun np =>
      if strIn "fc" np.1 || strIn "conv" np.1 || strIn "linear" np.1 then
        if strIn "weight" np.1 then
          some (checkW (.single np.2) "resnet_cifar")
        else if strIn "bias" np.1 then
          some (checkW (.pair (stateDict (biasToWeight np.1)) np.2) "default_bias")
        else none
      else none
  else
    params.filterMap fun np =>
      if strIn "fc" np.1 || strIn "conv" np.1 || strIn "linear" np.1 then
        if strIn "weight" np.1 then
          some (checkW (.single np.2) "default")
        else if strIn "bias" np.1 then
          some (checkW (.pair (stateDict (biasToWeight np.1)) np.2) "default_bias")
        else none
      else none

/-- `np.min` over a Python list: `none` models the `ValueError` numpy raises
on an empty list. -/
def npMin : List ℚ → Option ℚ
  | [] => none
  | x :: xs => some (xs.foldl min x)

/-- The default value of the `threshold` argument of
`verify_initialization` (verify.py line 133). -/
def initDefaultThreshold : ℚ := 1 / 100

/-- `verify_initialization(dir, architecture, threshold, net, verbose)`:
returns the p-value list, and — when `verbose` — additionally the verdict
flag: `some true` means the initialization was flagged as inconsistent with
the claimed scheme because `np.min(p_list) < threshold` (verify.py lines
185-192). -/
def verify_initialization {P : Type} (modelName : String)
    (params : List (String × P)) (stateDict : String → P) (shapeLen : P → ℕ)
    (checkW : CheckArg P → String → ℚ) (threshold : ℚ) (verbose : Bool) :
    Except String (Option Bool × List ℚ) :=
  let ps := initPList modelName params stateDict shapeLen checkW
  if verbose then
    match npMin ps with
    | none => .error "ValueError"
    | some m => .ok (some (decide (m < threshold)), ps)
  else .ok (none, ps)

/-! ## Spoof Attacker: `attack3` (spoof_cifar/spoof_attack3.py)

The per-step organic training — the `cut` sub-batch loop with its LBFGS
gradient-inversion retries followed by real SGD steps on the synthetic
batches (lines 168-238) — is external, stochastic machinery; it is
abstracted as a function from step index and starting parameters to the
trained parameters.  State dicts and parameter lists are both modelled as
the flattened vector `Params`. -/

/-- The metric list hard-coded by `attack3` (spoof_attack3.py line 41). -/
def spoofOrder : List Metric := ["1", "2", "inf", "cos"]

/-- The threshold list hard-coded by `attack3` (spoof_attack3.py line 42). -/
def spoofThreshold : List ℚ := [1000, 10, 1 / 10, 1 / 100]

/-- `step_weight[key] = (at_weight[key] - original_weight[key]) / t`,
computed once before the step loop with `original_weight` the attack's
starting state `W0'` and `at_weight` the genuine end state `Wt`
(spoof_attack3.py lines 142-148). -/
def stepWeightOf (atW w0 : Params) (t : ℕ) : Params :=
  List.zipWith (fun a o => (a - o) / (t : ℚ)) atW w0

/-- `k_step_dy_dx = (cur - at) / t` computed once from the starting
parameters (spoof_attack3.py lines 150-151). -/
def kStepOf (cur atW : Params) (t : ℕ) : Params :=
  List.zipWith (fun c a => (c - a) / (t : ℚ)) cur atW

/-- `target_param = torch.add(-s, cur)` over `k_step_dy_dx` and the
parameters at the start of the step (spoof_attack3.py line 164). -/
def targetOf (kStep cur : Params) : Params :=
  List.zipWith (fun s c => -s + c) kStep cur

/-- The per-step validity check of the `attack3` verify block: `flag`
stays `0` exactly when, for every metric, the
`parameter_distance(target_param, dummy_param)` entry is not above the
hard-coded threshold (spoof_attack3.py lines 242, 271-289). -/
def stepValid (pd : PDist) (target dummy : Params) : Bool :=
  (List.range spoofOrder.length).all fun k =>
    decide ((pd target dummy spoofOrder).getD k 0 ≤ spoofThreshold.getD k 0)

/-- One iteration of the `attack3` step loop (spoof_attack3.py lines
160-301), acting on the state (current net parameters, `valid_count`,
persisted checkpoints).  With verification enabled the net is forcibly
overwritten with `original_weight + step_weight` and that state is saved as
`model_step_{k*(i+1)}`; without it the organically-trained parameters are
kept and nothing is saved. -/
def attack3Step (pd : PDist) (tr : ℕ → Params → Params) (stepW kStep : Params)
    (verify : Bool) (kFreq : ℕ) (st : Params × ℕ × List (ℕ × Params))
    (i : ℕ) : Params × ℕ × List (ℕ × Params) :=
  let cur := st.1
  let target := targetOf kStep cur
  let original := cur
  let trained := tr i cur
  if verify then
    let valid := st.2.1 + (if stepValid pd target trained then 1 else 0)
    let nw := List.zipWith (· + ·) original stepW
    (nw, valid, st.2.2 ++ [(kFreq * (i + 1), nw)])
  else (trained, st.2.1, st.2.2)

/-- The `attack3` step loop: starting from `W0'`, run `t` steps and return
the final parameters, `valid_count`, and the persisted checkpoints
(step number and contents) in order (spoof_attack3.py lines 140-301). -/
def attack3Run (w0 atW : Params) (t : ℕ) (pd : PDist)
    (tr : ℕ → Params → Params) (verify : Bool) (kFreq : ℕ) :
    Params × ℕ × List (ℕ × Params) :=
  (List.range t).foldl
    (attack3Step pd tr (stepWeightOf atW w0 t) (kStepOf w0 atW t) verify kFreq)
    (w0, 0, [])

/-- The uniform linear path from `w0`: `i` applications of
`+ step_weight`. -/
def linPath (w0 stepW : Params) : ℕ → Params
  | 0 => w0
  | i + 1 => List.zipWith (· + ·) (linPath w0 stepW i) stepW

/-- The acceptance test of the synthetic-batch retry loop:
`d2grad < args.gd and d2r < args.nd` (spoof_attack3.py line 209). -/
def retryAccept (gd nd g r : ℚ) : Bool :=
  decide (g < gd) && decide (r < nd)

/-- Helper for `retryLoop`: attempts from index `k` with the given fuel. -/
def retryLoopAux {α : Type} (attempt : ℕ → ℚ × ℚ × α) (gd nd : ℚ) :
    ℕ → ℕ → Option (ℕ × α × Bool)
  | _, 0 => none
  | k, fuel + 1 =>
    let a := attempt k
    if retryAccept gd nd a.1 a.2.1 then some (k, a.2.2, true)
    else
      match fuel with
      | 0 => some (k, a.2.2, false)
      | _ + 1 => retryLoopAux attempt gd nd (k + 1) fuel

/-- The per-sub-batch retry loop of `attack3` (spoof_attack3.py lines
175-215): attempt `k` runs the external LBFGS gradient-inversion on the
`k`-th drawn base batch and yields `(d2grad, d2r, dummy_data)`; the loop
breaks at the first accepted attempt, redraws a fresh base batch otherwise,
and after `retry` rejected attempts simply continues with the last produced
synthetic batch.  The result is the attempt index used, the synthetic batch
the step proceeds with, and whether it was accepted; `none` models the
`NameError` a zero retry budget would cause downstream (`dummy_data` never
assigned). -/
def retryLoop {α : Type} (attempt : ℕ → ℚ × ℚ × α) (gd nd : ℚ)
    (retry : ℕ) : Option (ℕ × α × Bool) :=
  retryLoopAux attempt gd nd 0 retry

/-- A concrete realisation of the external Distance Engine
(`utils.parameter_distance`) on one-element parameter vectors, used to
instantiate counterexamples: for single-parameter models the flattened L1,
L2 and L∞ norms of the difference all equal `|x - y|` exactly, and
`1 - cosine_similarity` is `0` for same-sign values, `2` for opposite-sign
values, and `1` when one value is zero (torch's `eps` guard makes the
similarity of a zero vector `0`). -/
def pdOne (a b : Params) (order : List Metric) : List ℚ :=
  let x := a.getD 0 0
  let y := b.getD 0 0
  order.map fun m =>
    if m = "cos" then (if 0 < x * y then 0 else if x * y < 0 then 2 else 1)
    else |x - y|

/-! ## Concrete instances used by witnesses and counterexamples -/

/-- A tiny single-metric verification scenario: two recorded steps saved
every step, checkpoint at step `k` holding the single parameter `k`, a
training collaborator that shifts the parameter by `100`, and the
one-dimensional distance for every metric. -/
def cEnvOne : TopqEnv :=
  ⟨[0, 1], 1, ["1"], fun k => [(k : ℚ)], fun p _ => p.map (· + 100),
   fun a b o => o.map fun _ => |a.getD 0 0 - b.getD 0 0|⟩

/-- The same scenario with two requested metrics and a faithful replayer. -/
def cEnvTwo : TopqEnv :=
  ⟨[0, 1], 1, ["1", "2"], fun k => [(k : ℚ)], fun p _ => p,
   fun a b o => o.map fun _ => |a.getD 0 0 - b.getD 0 0|⟩

/-- A concrete retry-attempt trace: attempt `1` meets both ceilings, the
others meet neither. -/
def cAttempt (k : ℕ) : ℚ × ℚ × ℕ :=
  if k = 1 then (1, 1, k) else (100, 100, k)

/-! ## Helper lemmas -/

theorem foldlMin_lt_iff (xs : List ℚ) (x t : ℚ) :
    xs.foldl min x < t ↔ x < t ∨ ∃ p ∈ xs, p < t := by
  induction xs generalizing x with
  | nil => simp
  | cons y ys ih =>
    simp only [List.foldl_cons, ih, min_lt_iff, List.mem_cons]
    constructor
    · rintro ((h | h) | ⟨p, hp, h⟩)
      · exact Or.inl h
      · exact Or.inr ⟨y, Or.inl rfl, h⟩
      · exact Or.inr ⟨p, Or.inr hp, h⟩
    · rintro (h | ⟨p, (rfl | hp), h⟩)
      · exact Or.inl (Or.inl h)
      · exact Or.inl (Or.inr h)
      · exact Or.inr ⟨p, hp, h⟩

theorem npMin_lt_iff (l : List ℚ) (m t : ℚ) (h : npMin l = some m) :
    m < t ↔ ∃ p ∈ l, p < t := by
  cases l with
  | nil => simp [npMin] at h
  | cons x xs =>
    simp only [npMin, Option.some.injEq] at h
    subst h
    simp only [foldlMin_lt_iff, List.mem_cons]
    constructor
    · rintro (h | ⟨p, hp, h⟩)
      · exact ⟨x, Or.inl rfl, h⟩
      · exact ⟨p, Or.inr hp, h⟩
    · rintro ⟨p, (rfl | hp), h⟩
      · exact Or.inl h
      · exact Or.inr ⟨p, hp, h⟩

/-! ## Claim C3 — Full Verifier verdicts -/

/-- Claim C3: in `verify_all`, for every requested metric the trajectory is
reported valid exactly when no interval's computed distance is strictly
greater than that metric's threshold, and a threshold violation never
changes the returned value or raises: the distance matrix is returned
normally. -/
theorem verify_all_verdict (dirExists : Bool) (ckpt : ℕ → Params)
    (train : Train) (pd : PDist) (seq : List ℕ) (saveFreq : ℕ)
    (order : List Metric) (threshold : List ℚ)
    (hdir : dirExists = true) (hlen : order.length = threshold.length) :
    verify_all dirExists ckpt train pd seq saveFreq order threshold =
      .ok (verifyAllDists ckpt train pd seq saveFreq order) ∧
    ∀ k, k < order.length →
      (metricValid ((verifyAllDists ckpt train pd seq saveFreq order).getD k [])
          (threshold.getD k 0) = true ↔
        ∀ d ∈ (verifyAllDists ckpt train pd seq saveFreq order).getD k [],
          d ≤ threshold.getD k 0) := by
  constructor
  · simp [verify_all, hdir, hlen]
  · intro k _
    simp [metricValid, aboveThresholdCount, List.length_eq_zero,
      List.filter_eq_nil_iff, not_lt]

/-- Witness for C3: a run with two intervals whose distances are all zero is
returned intact and judged valid for the single requested metric. -/
theorem verify_all_verdict_witness :
    verify_all true (fun _ => []) (fun p _ => p)
        (fun _ _ o => o.map fun _ => (0 : ℚ)) [0, 1] 1 ["1"] [1] =
      .ok (verifyAllDists (fun _ => []) (fun p _ => p)
        (fun _ _ o => o.map fun _ => (0 : ℚ)) [0, 1] 1 ["1"]) ∧
    ∀ k, k < ("1" :: []).length →
      (metricValid ((verifyAllDists (fun _ => []) (fun p _ => p)
          (fun _ _ o => o.map fun _ => (0 : ℚ)) [0, 1] 1 ["1"]).getD k [])
          (([1] : List ℚ).getD k 0) = true ↔
        ∀ d ∈ (verifyAllDists (fun _ => []) (fun p _ => p)
            (fun _ _ o => o.map fun _ => (0 : ℚ)) [0, 1] 1 ["1"]).getD k [],
          d ≤ ([1] : List ℚ).getD k 0) :=
  verify_all_verdict true (fun _ => []) (fun p _ => p)
    (fun _ _ o => o.map fun _ => (0 : ℚ)) [0, 1] 1 ["1"] [1] rfl rfl

/-! ## Claim C8 — Initialization Verifier verdict -/

/-- Claim C8: `verify_initialization` returns the computed p-value list and
flags the initialization as inconsistent exactly when some p-value is
strictly below the configured threshold, whose default is `0.01`. -/
theorem verify_initialization_verdict {P : Type} (modelName : String)
    (params : List (String × P)) (stateDict : String → P) (shapeLen : P → ℕ)
    (checkW : CheckArg P → String → ℚ) (threshold : ℚ)
    (h : initPList modelName params stateDict shapeLen checkW ≠ []) :
    verify_initialization modelName params stateDict shapeLen checkW
        threshold true =
      .ok (some (decide (∃ p ∈ initPList modelName params stateDict shapeLen
              checkW, p < threshold)),
            initPList modelName params stateDict shapeLen checkW) ∧
    initDefaultThreshold = 1 / 100 := by
  refine ⟨?_, rfl⟩
  unfold verify_initialization
  cases hm : npMin (initPList modelName params stateDict shapeLen checkW) with
  | none =>
    exfalso
    apply h
    cases hl : initPList modelName params stateDict shapeLen checkW with
    | nil => rfl
    | cons x xs => rw [hl] at hm; simp [npMin] at hm
  | some m =>
    have hdec : decide (m < threshold) =
        decide (∃ p ∈ initPList modelName params stateDict shapeLen checkW,
          p < threshold) :=
      decide_eq_decide.mpr
        (npMin_lt_iff (initPList modelName params stateDict shapeLen checkW)
          m threshold hm)
    simp [hm, hdec]

/-- The external statistical test used in the C8 witness: every call yields
the p-value `1/200`. -/
def cCheckW : CheckArg Unit → String → ℚ := fun _ _ => 1 / 200

/-- Witness for C8: a default-family model with a single fully-connected
weight whose p-value `1/200` lies below the default threshold. -/
theorem verify_initialization_verdict_witness :
    verify_initialization "mlp" [("fc.weight", ())] (fun _ => ())
        (fun _ => 0) cCheckW initDefaultThreshold true =
      .ok (some (decide (∃ p ∈ initPList "mlp" [("fc.weight", ())]
              (fun _ => ()) (fun _ => 0) cCheckW,
              p < initDefaultThreshold)),
            initPList "mlp" [("fc.weight", ())] (fun _ => ()) (fun _ => 0)
              cCheckW) ∧
    initDefaultThreshold = 1 / 100 :=
  verify_initialization_verdict "mlp" [("fc.weight", ())] (fun _ => ())
    (fun _ => 0) cCheckW initDefaultThreshold (by decide)

/-! ## Claim C2 — Hash Verifier payload (code evaluated at the failing
input) -/

/-- Claim C2 (divergence): at the two-sample dataset with sample strings
`"A"`, `"B"`, the digest computed by `verify_hash` is identical for the
index sequence `[1, 0]` and its permutation `[0, 1]` under every digest
function, because the hashed payload ignores the sequence — whereas the
payload prescribed by the spec differs between the two orders. -/
theorem verify_hash_ignores_sequence :
    (∀ sha256 : String → String, ∀ recorded : String,
      verify_hash true [1, 0] recorded ["A", "B"] sha256 =
        verify_hash true [0, 1] recorded ["A", "B"] sha256) ∧
    verifyHashPayload ["A", "B"] [1, 0] = verifyHashPayload ["A", "B"] [0, 1] ∧
    verifyHashPayloadSpec ["A", "B"] [1, 0] ≠
      verifyHashPayloadSpec ["A", "B"] [0, 1] ∧
    verifyHashPayload ["A", "B"] [1, 0] ≠
      verifyHashPayloadSpec ["A", "B"] [1, 0] := by
  refine ⟨fun sha256 recorded => rfl, rfl, ?_, ?_⟩ <;> decide

/-! ## Claim C4 — Spoof Attacker overwrite and persistence -/

theorem attack3_loop_state (pd : PDist) (tr : ℕ → Params → Params)
    (stepW kStep : Params) (kFreq : ℕ) (w0 : Params) (t : ℕ) :
    ((List.range t).foldl (attack3Step pd tr stepW kStep true kFreq)
        (w0, 0, [])).1 = linPath w0 stepW t ∧
    ((List.range t).foldl (attack3Step pd tr stepW kStep true kFreq)
        (w0, 0, [])).2.2 =
      (List.range t).map fun i => (kFreq * (i + 1), linPath w0 stepW (i + 1)) := by
  induction t with
  | zero => simp [linPath]
  | succ t ih =>
    obtain ⟨ih1, ih2⟩ := ih
    rw [List.range_succ, List.foldl_append, List.foldl_cons, List.foldl_nil]
    constructor
    · simp [attack3Step, ih1, linPath]
    · simp [attack3Step, ih1, ih2, List.range_succ, linPath]

/-- Claim C4: with verification enabled, `step_weight` is the fixed
per-element delta `(Wt - W0') / t` computed once before the loop, and at the
end of every step the network is forcibly overwritten with
`original_weight + step_weight` — the state at the start of the step plus
the delta, regardless of what the organic training `tr` produced — and
exactly that overwritten state is persisted as the checkpoint
`model_step_{k*(i+1)}` of step `i`. -/
theorem attack3_overwrite_persisted (w0 atW : Params) (t : ℕ) (pd : PDist)
    (tr : ℕ → Params → Params) (kFreq : ℕ) :
    stepWeightOf atW w0 t =
      List.zipWith (fun a o => (a - o) / (t : ℚ)) atW w0 ∧
    (attack3Run w0 atW t pd tr true kFreq).2.2 =
      (List.range t).map fun i =>
        (kFreq * (i + 1), linPath w0 (stepWeightOf atW w0 t) (i + 1)) :=
  ⟨rfl, (attack3_loop_state pd tr (stepWeightOf atW w0 t) (kStepOf w0 atW t)
    kFreq w0 t).2⟩

/-! ## Claim C5 — Spoof Attacker validity tally -/

/-- Claim C5 (counterexample): a `t = 1` run in which the organic training
leaves the single parameter unchanged while the genuine end state sits
`2000` away: the tally re-checks the *organically trained* state against the
linear-path target, the L1 distance `2000` exceeds the hard-coded threshold
`1000`, and `valid_count` comes out `0`, not `1`. -/
theorem attack3_validcount_counterexample :
    (attack3Run [0] [2000] 1 pdOne (fun _ w => w) true 100).2.1 ≠ 1 := by
  have h1 : stepValid pdOne (targetOf (kStepOf [0] [2000] 1) [0]) [0] = false := by
    simp [stepValid, pdOne, targetOf, kStepOf, spoofOrder, spoofThreshold]
    refine ⟨0, by norm_num, ?_⟩
    norm_num
  simp [attack3Run, attack3Step, List.range_succ, h1]

/-- Claim C5 (amended): with `t = 1` and verification enabled,
`valid_count` is `1` exactly when the Distance Engine judges the
*organically trained, pre-overwrite* parameters against the linear-path
target within every hard-coded threshold — the overwritten state itself is
installed only after the tally. -/
theorem attack3_validcount_t1 (w0 atW : Params) (pd : PDist)
    (tr : ℕ → Params → Params) (kFreq : ℕ) :
    (attack3Run w0 atW 1 pd tr true kFreq).2.1 =
      if stepValid pd (targetOf (kStepOf w0 atW 1) w0) (tr 0 w0) then 1
      else 0 := by
  simp [attack3Run, attack3Step, List.range_succ]

/-! ## Claim C7 — Spoof Attacker retry loop -/

theorem retryLoopAux_succ {α : Type} (attempt : ℕ → ℚ × ℚ × α) (gd nd : ℚ)
    (k fuel : ℕ) :
    retryLoopAux attempt gd nd k (fuel + 1) =
      if retryAccept gd nd (attempt k).1 (attempt k).2.1
      then some (k, (attempt k).2.2, true)
      else
        match fuel with
        | 0 => some (k, (attempt k).2.2, false)
        | _ + 1 => retryLoopAux attempt gd nd (k + 1) fuel := rfl

theorem retryLoopAux_reject_all {α : Type} (attempt : ℕ → ℚ × ℚ × α)
    (gd nd : ℚ) (fuel k : ℕ) (hf : 1 ≤ fuel)
    (h : ∀ j, j < fuel → retryAccept gd nd (attempt (k + j)).1
      (attempt (k + j)).2.1 = false) :
    retryLoopAux attempt gd nd k fuel =
      some (k + (fuel - 1), (attempt (k + (fuel - 1))).2.2, false) := by
  induction fuel generalizing k with
  | zero => omega
  | succ fuel ih =>
    have h0 := h 0 (Nat.succ_pos fuel)
    simp only [Nat.add_zero] at h0
    rw [retryLoopAux_succ, h0]
    simp only [Bool.false_eq_true, if_false]
    cases fuel with
    | zero => simp
    | succ fuel' =>
      have hrec := ih (k + 1) (Nat.succ_pos fuel') ?_
      · show retryLoopAux attempt gd nd (k + 1) (fuel' + 1) = _
        rw [hrec]
        have e : k + 1 + (fuel' + 1 - 1) = k + (fuel' + 1 + 1 - 1) := by omega
        rw [e]
      · intro j hj
        have hh := h (j + 1) (by omega)
        have e : k + (j + 1) = k + 1 + j := by omega
        rwa [e] at hh

theorem retryLoopAux_first_accept {α : Type} (attempt : ℕ → ℚ × ℚ × α)
    (gd nd : ℚ) (fuel k i : ℕ) (hi : i < fuel)
    (hacc : retryAccept gd nd (attempt (k + i)).1 (attempt (k + i)).2.1 = true)
    (hmin : ∀ j, j < i → retryAccept gd nd (attempt (k + j)).1
      (attempt (k + j)).2.1 = false) :
    retryLoopAux attempt gd nd k fuel =
      some (k + i, (attempt (k + i)).2.2, true) := by
  induction fuel generalizing k i with
  | zero => omega
  | succ fuel ih =>
    cases i with
    | zero =>
      simp only [Nat.add_zero] at hacc
      rw [retryLoopAux_succ, hacc]
      simp
    | succ i' =>
      have h0 := hmin 0 (Nat.succ_pos i')
      simp only [Nat.add_zero] at h0
      rw [retryLoopAux_succ, h0]
      simp only [Bool.false_eq_true, if_false]
      cases fuel with
      | zero => omega
      | succ fuel' =>
        have hrec := ih (k + 1) i' (by omega) ?_ ?_
        · show retryLoopAux attempt gd nd (k + 1) (fuel' + 1) = _
          rw [hrec]
          have e : k + 1 + i' = k + (i' + 1) := by omega
          rw [e]
        · have e : k + 1 + i' = k + (i' + 1) := by omega
          rw [e]; exact hacc
        · intro j hj
          have hh := hmin (j + 1) (by omega)
          have e : k + (j + 1) = k + 1 + j := by omega
          rwa [e] at hh

/-- Claim C7: the per-sub-batch retry loop accepts an attempt — exiting
early — exactly when both the residual gradient-matching term is below `gd`
and the perturbation penalty is below `nd`; each rejection moves on to the
next drawn base batch, and when the whole budget is rejected the loop still
returns the last produced synthetic batch instead of raising. -/
theorem retry_loop_behaviour {α : Type} (attempt : ℕ → ℚ × ℚ × α)
    (gd nd : ℚ) (retry : ℕ) (h : 1 ≤ retry) :
    (∀ k, k < retry →
      retryAccept gd nd (attempt k).1 (attempt k).2.1 = true →
      (∀ j, j < k → retryAccept gd nd (attempt j).1 (attempt j).2.1 = false) →
      retryLoop attempt gd nd retry = some (k, (attempt k).2.2, true)) ∧
    ((∀ k, k < retry →
        retryAccept gd nd (attempt k).1 (attempt k).2.1 = false) →
      retryLoop attempt gd nd retry =
        some (retry - 1, (attempt (retry - 1)).2.2, false)) := by
  constructor
  · intro k hk hacc hmin
    have := retryLoopAux_first_accept attempt gd nd retry 0 k hk
      (by simpa using hacc) (by simpa using hmin)
    simpa [retryLoop] using this
  · intro hall
    have := retryLoopAux_reject_all attempt gd nd retry 0 h
      (by simpa using fun j hj => hall j hj)
    simpa [retryLoop] using this

/-- Witness for C7: with ceilings `gd = 15`, `nd = 20` and budget `3`, the
trace `cAttempt` is rejected at attempt `0` and accepted at attempt `1`. -/
theorem retry_loop_behaviour_witness :
    retryLoop cAttempt 15 20 3 = some (1, (cAttempt 1).2.2, true) :=
  (retry_loop_behaviour cAttempt 15 20 3 (by decide)).1 1 (by decide)
    (by decide) (by decide)

/-! ## Claim C1 — Top-Q Phase 1 does not replay -/

/-- Claim C1 (counterexample): in the concrete scenario `cEnvOne`, the
Phase-1 ranking distances computed by `verify_topq` differ from the
distances between the replayed end-state and the recorded end checkpoint
that the claim describes: Phase 1 compares recorded checkpoints only
(distances `1`), while a replay through the training collaborator would
yield distances `99`. -/
theorem topq_phase1_counterexample :
    phase1Res cEnvOne 0 2 ≠ phase1ResSpec cEnvOne 0 2 := by
  have h1 : phase1Res cEnvOne 0 2 = [[1], [1]] := by
    simp [phase1Res, cEnvOne, phase1CurStep, phase1NextStep, List.range_succ]
    norm_num
  have h2 : phase1ResSpec cEnvOne 0 2 = [[99], [99]] := by
    simp [phase1ResSpec, cEnvOne, phase1CurStep, phase1NextStep,
      intervalSlice, List.range_succ]
    norm_num
  rw [h1, h2]
  simp

/-- Claim C1 (amended): Phase 1 of `verify_topq` ranks the epoch's
intervals by the distance between the two *recorded* checkpoints at the
interval's endpoints; the external training function is never invoked in
Phase 1, so its ranking distances — and the Phase-1 distance matrix the
top-`q` selection is taken from — are invariant under any change of the
training collaborator. -/
theorem topq_phase1_uses_recorded_checkpoints (env : TopqEnv) (tr' : Train)
    (start fin : ℕ) :
    phase1Res { env with train := tr' } start fin = phase1Res env start fin ∧
    phase1Dists { env with train := tr' } start fin =
      phase1Dists env start fin ∧
    phase1Res env start fin =
      ((List.range (fin - start)).map (· + start)).map fun i =>
        env.pd (env.ckpt (phase1CurStep env.seq.length env.saveFreq start i))
               (env.ckpt (phase1NextStep env.seq.length env.saveFreq i))
               env.order :=
  ⟨rfl, rfl, rfl⟩

/-! ## Claim C9 — single-metric top-q fails for q > 1 -/

theorem epochStart_zero (L E S : ℕ) : epochStart L E S 0 = 0 := by
  simp [epochStart, roundHalfEven, ckptPerEpoch]

theorem argsortDesc_length (v : List ℚ) : (argsortDesc v).length = v.length := by
  unfold argsortDesc
  rw [List.Perm.length_eq (List.perm_insertionSort _ _), List.length_range]

theorem topqRow_eq (v : List ℚ) (q : ℕ) (h1 : 1 ≤ q) (h2 : q ≤ v.length) :
    topqRow v q = some ((argsortDesc v).take q) := by
  unfold topqRow
  rw [if_neg (by omega), if_neg (by omega)]

theorem topqRow_take_length (v : List ℚ) (q : ℕ) (h2 : q ≤ v.length) :
    ((argsortDesc v).take q).length = q := by
  rw [List.length_take, argsortDesc_length]
  omega

theorem pyIntStep_none (s f : ℕ) (row : List ℕ) (h : row.length ≠ 1) :
    pyIntStep s f row = none := by
  cases row with
  | nil => rfl
  | cons a t =>
    cases t with
    | nil => simp at h
    | cons b t2 => rfl

theorem mapM_option_some {α β : Type} (f : α → Option β) (g : α → β)
    (l : List α) (h : ∀ x ∈ l, f x = some (g x)) :
    l.mapM f = some (l.map g) := by
  induction l with
  | nil => rfl
  | cons a t ih =>
    rw [List.mapM_cons, h a (by simp), ih (fun x hx => h x (by simp [hx]))]
    rfl

theorem phase1Res_length (env : TopqEnv) (start fin : ℕ) :
    (phase1Res env start fin).length = fin - start := by
  simp [phase1Res]

theorem phase1Dists_single (env : TopqEnv) (hord : env.order.length = 1)
    (start fin : ℕ) :
    phase1Dists env start fin =
      [(phase1Res env start fin).map fun r => r.getD 0 0] := by
  unfold phase1Dists
  rw [hord]
  rfl

/-- Claim C9: when exactly one distance metric is requested (whether passed
as a scalar or as a one-element list, both normalise to a length-one metric
list) and `q ≥ 2`, `verify_topq` dies in the Phase-2 loop with a
`TypeError`: the union step is skipped, `topq_steps` stays two-dimensional,
and `int()` rejects its `q`-element rows — so top-q verification only
completes with at least two requested metrics. -/
theorem verify_topq_single_metric_q_gt1_errors (env : TopqEnv)
    (threshold : List ℚ) (epochs q : ℕ) (hord : env.order.length = 1)
    (hthr : threshold.length = 1) (hepochs : 1 ≤ epochs) (hq : 2 ≤ q)
    (hn : q ≤ epochEnd env.seq.length epochs env.saveFreq 0) :
    verify_topq true env threshold epochs q = .error "TypeError" := by
  obtain ⟨n, rfl⟩ : ∃ n, epochs = n + 1 := ⟨epochs - 1, by omega⟩
  have hvlen : ((phase1Res env 0 (epochEnd env.seq.length (n + 1)
      env.saveFreq 0)).map (fun r => r.getD 0 0)).length =
      epochEnd env.seq.length (n + 1) env.saveFreq 0 := by
    rw [List.length_map, phase1Res_length]
    omega
  have hrow : topqRow ((phase1Res env 0 (epochEnd env.seq.length (n + 1)
      env.saveFreq 0)).map (fun r => r.getD 0 0)) q =
      some ((argsortDesc ((phase1Res env 0 (epochEnd env.seq.length (n + 1)
        env.saveFreq 0)).map (fun r => r.getD 0 0))).take q) :=
    topqRow_eq _ q (by omega) (by rw [hvlen]; exact hn)
  have hm : List.mapM (fun v => topqRow v q)
      (phase1Dists env 0 (epochEnd env.seq.length (n + 1) env.saveFreq 0)) =
      some [(argsortDesc ((phase1Res env 0 (epochEnd env.seq.length (n + 1)
        env.saveFreq 0)).map (fun r => r.getD 0 0))).take q] := by
    rw [phase1Dists_single env hord]
    exact mapM_option_some _ (fun v => (argsortDesc v).take q) _
      (by intro x hx; simp only [List.mem_singleton] at hx; subst hx
          exact hrow)
  have hbody : epochBody env q (n + 1) [] 0 = .error "TypeError" := by
    simp only [epochBody, epochStart_zero]
    split
    · rename_i heq
      rw [hm] at heq
      cases heq
    · rename_i rows heq
      rw [hm] at heq
      injection heq with heq
      subst heq
      rw [if_neg (by omega)]
      have hm2 : List.mapM (pyIntStep 0 env.saveFreq)
          [(argsortDesc ((phase1Res env 0 (epochEnd env.seq.length (n + 1)
            env.saveFreq 0)).map (fun r => r.getD 0 0))).take q] = none := by
        rw [List.mapM_cons,
          pyIntStep_none 0 env.saveFreq _
            (by rw [topqRow_take_length _ q (by rw [hvlen]; exact hn)]; omega)]
        rfl
      rw [hm2]
  unfold verify_topq
  rw [if_neg (by simp), if_neg (not_not_intro (hord.trans hthr.symm))]
  rw [List.range_succ_eq_map, List.foldlM_cons, hbody]
  rfl

/-- Witness for C9: the two-step single-metric scenario `cEnvOne` with
`epochs = 1` and `q = 2` raises the `TypeError`. -/
theorem verify_topq_single_metric_q_gt1_errors_witness :
    verify_topq true cEnvOne [1] 1 2 = .error "TypeError" :=
  verify_topq_single_metric_q_gt1_errors cEnvOne [1] 1 2 rfl rfl
    (by norm_num) (by norm_num)
    (by simp [cEnvOne, epochEnd, ckptPerEpoch, roundHalfEven])

/-! ## Claim C6 — size of the multi-metric top-q union -/

theorem union1d_toFinset (a b : List ℕ) :
    (union1d a b).toFinset = a.toFinset ∪ b.toFinset := by
  unfold union1d
  rw [List.toFinset_eq_of_perm _ _ (List.perm_insertionSort _ _),
    List.toFinset.ext fun x => List.mem_dedup, List.toFinset_append]

theorem union1d_nodup (a b : List ℕ) : (union1d a b).Nodup := by
  unfold union1d
  exact ((List.perm_insertionSort _ _).nodup_iff).mpr (List.nodup_dedup _)

theorem foldl_union1d_nodup (rs : List (List ℕ)) (r : List ℕ)
    (hr : r.Nodup) : (rs.foldl union1d r).Nodup := by
  induction rs generalizing r with
  | nil => exact hr
  | cons b bs ih => exact ih _ (union1d_nodup r b)

theorem foldl_union1d_toFinset (rs : List (List ℕ)) (r : List ℕ) :
    (rs.foldl union1d r).toFinset =
      rs.foldl (fun s b => s ∪ b.toFinset) r.toFinset := by
  induction rs generalizing r with
  | nil => rfl
  | cons b bs ih => rw [List.foldl_cons, List.foldl_cons, ih, union1d_toFinset]

theorem subset_foldl_union (rs : List (List ℕ)) (s : Finset ℕ) :
    s ⊆ rs.foldl (fun s b => s ∪ b.toFinset) s := by
  induction rs generalizing s with
  | nil => exact Finset.Subset.refl s
  | cons b bs ih =>
    exact Finset.Subset.trans Finset.subset_union_left (ih (s ∪ b.toFinset))

theorem foldl_union_subset_range (rs : List (List ℕ)) (s : Finset ℕ) (n : ℕ)
    (hs : s ⊆ Finset.range n) (h : ∀ b ∈ rs, ∀ x ∈ b, x < n) :
    rs.foldl (fun s b => s ∪ b.toFinset) s ⊆ Finset.range n := by
  induction rs generalizing s with
  | nil => exact hs
  | cons b bs ih =>
    apply ih
    · apply Finset.union_subset hs
      intro x hx
      rw [List.mem_toFinset] at hx
      exact Finset.mem_range.mpr (h b (by simp) x hx)
    · intro b' hb' x hx
      exact h b' (by simp [hb']) x hx

theorem foldl_union_card_le (rs : List (List ℕ)) (s : Finset ℕ) :
    (rs.foldl (fun s b => s ∪ b.toFinset) s).card ≤
      s.card + (rs.map (fun b => b.length)).sum := by
  induction rs generalizing s with
  | nil => simp
  | cons b bs ih =>
    have h1 := ih (s ∪ b.toFinset)
    have h2 : (s ∪ b.toFinset).card ≤ s.card + b.toFinset.card :=
      Finset.card_union_le _ _
    have h3 : b.toFinset.card ≤ b.length := List.toFinset_card_le b
    simp only [List.foldl_cons, List.map_cons, List.sum_cons]
    omega

theorem argsortDesc_perm (v : List ℚ) :
    List.Perm (argsortDesc v) (List.range v.length) :=
  List.perm_insertionSort _ _

theorem argsortDesc_take_nodup (v : List ℚ) (q : ℕ) :
    ((argsortDesc v).take q).Nodup :=
  List.Nodup.sublist (List.take_sublist q _)
    (((argsortDesc_perm v).nodup_iff).mpr (List.nodup_range _))

theorem argsortDesc_take_lt (v : List ℚ) (q : ℕ) :
    ∀ x ∈ (argsortDesc v).take q, x < v.length := fun x hx =>
  List.mem_range.mp ((argsortDesc_perm v).mem_iff.mp
    (List.take_subset q _ hx))

theorem sum_map_const_nat {α : Type} (l : List α) (g : α → ℕ) (c : ℕ)
    (h : ∀ x ∈ l, g x = c) : (l.map g).sum = l.length * c := by
  induction l with
  | nil => simp
  | cons a t ih =>
    simp only [List.map_cons, List.sum_cons, List.length_cons,
      h a (by simp), ih (fun x hx => h x (by simp [hx]))]
    ring

/-- Claim C6: with more than one requested metric, the Phase-2 selection is
the union across metrics of the per-metric top-`q` interval index rows, and
for every distance matrix over `n` intervals with `q ≤ n` that union has at
least `q` and at most `min n (q * num_metrics)` elements. -/
theorem topq_union_size (dists : List (List ℚ)) (n q : ℕ)
    (hq : 1 ≤ q) (hn : ∀ v ∈ dists, v.length = n) (hqn : q ≤ n)
    (hm : 2 ≤ dists.length) :
    ∃ rows, dists.mapM (fun v => topqRow v q) = some rows ∧
      topqSelect dists q = some (unionAll rows) ∧
      q ≤ (unionAll rows).length ∧
      (unionAll rows).length ≤ min n (q * dists.length) := by
  have hrows : dists.mapM (fun v => topqRow v q) =
      some (dists.map fun v => (argsortDesc v).take q) :=
    mapM_option_some _ _ _
      (fun v hv => topqRow_eq v q hq (by rw [hn v hv]; exact hqn))
  refine ⟨dists.map fun v => (argsortDesc v).take q, hrows, ?_, ?_⟩
  · unfold topqSelect
    rw [hrows]
    rfl
  obtain ⟨v0, vs, rfl⟩ : ∃ v0 vs, dists = v0 :: vs := by
    cases dists with
    | nil => simp at hm
    | cons v0 vs => exact ⟨v0, vs, rfl⟩
  have hv0 : v0.length = n := hn v0 (by simp)
  have hr0len : ((argsortDesc v0).take q).length = q :=
    topqRow_take_length v0 q (by rw [hv0]; exact hqn)
  have hr0nodup := argsortDesc_take_nodup v0 q
  have hcard0 : ((argsortDesc v0).take q).toFinset.card = q := by
    rw [List.toFinset_card_of_nodup hr0nodup, hr0len]
  have hunion_eq : unionAll ((v0 :: vs).map fun v => (argsortDesc v).take q) =
      (vs.map fun v => (argsortDesc v).take q).foldl union1d
        ((argsortDesc v0).take q) := rfl
  have hnodup : (unionAll ((v0 :: vs).map fun v =>
      (argsortDesc v).take q)).Nodup := by
    rw [hunion_eq]
    exact foldl_union1d_nodup _ _ hr0nodup
  have hlen_card : (unionAll ((v0 :: vs).map fun v =>
      (argsortDesc v).take q)).length =
      (unionAll ((v0 :: vs).map fun v =>
        (argsortDesc v).take q)).toFinset.card :=
    (List.toFinset_card_of_nodup hnodup).symm
  constructor
  · -- lower bound q
    have hsub : ((argsortDesc v0).take q).toFinset ⊆
        (unionAll ((v0 :: vs).map fun v =>
          (argsortDesc v).take q)).toFinset := by
      rw [hunion_eq, foldl_union1d_toFinset]
      exact subset_foldl_union _ _
    calc q = ((argsortDesc v0).take q).toFinset.card := hcard0.symm
      _ ≤ _ := Finset.card_le_card hsub
      _ = _ := hlen_card.symm
  · refine le_min ?_ ?_
    · -- upper bound n
      have hsubr : (unionAll ((v0 :: vs).map fun v =>
          (argsortDesc v).take q)).toFinset ⊆ Finset.range n := by
        rw [hunion_eq, foldl_union1d_toFinset]
        apply foldl_union_subset_range
        · intro x hx
          rw [List.mem_toFinset] at hx
          exact Finset.mem_range.mpr
            (hv0 ▸ argsortDesc_take_lt v0 q x hx)
        · intro b hb x hx
          rw [List.mem_map] at hb
          obtain ⟨v, hv, rfl⟩ := hb
          exact (hn v (by simp [hv])) ▸ argsortDesc_take_lt v q x hx
      calc (unionAll ((v0 :: vs).map fun v => (argsortDesc v).take q)).length
          = _ := hlen_card
        _ ≤ (Finset.range n).card := Finset.card_le_card hsubr
        _ = n := Finset.card_range n
    · -- upper bound q * m
      have hsum : ((vs.map fun v => (argsortDesc v).take q).map
          (fun b => b.length)).sum = vs.length * q := by
        rw [List.map_map]
        apply sum_map_const_nat
        intro v hv
        exact topqRow_take_length v q (by rw [hn v (by simp [hv])]; exact hqn)
      have hcardle : (unionAll ((v0 :: vs).map fun v =>
          (argsortDesc v).take q)).toFinset.card ≤
          q + vs.length * q := by
        rw [hunion_eq, foldl_union1d_toFinset]
        calc ((vs.map fun v => (argsortDesc v).take q).foldl
              (fun s b => s ∪ b.toFinset)
              ((argsortDesc v0).take q).toFinset).card
            ≤ ((argsortDesc v0).take q).toFinset.card +
              ((vs.map fun v => (argsortDesc v).take q).map
                (fun b => b.length)).sum := foldl_union_card_le _ _
          _ = q + vs.length * q := by rw [hcard0, hsum]
      rw [hlen_card]
      calc (unionAll ((v0 :: vs).map fun v =>
            (argsortDesc v).take q)).toFinset.card
          ≤ q + vs.length * q := hcardle
        _ = q * (v0 :: vs).length := by simp [List.length_cons]; ring

/-- Witness for C6: two metrics over two intervals with `q = 1`. -/
theorem topq_union_size_witness :
    ∃ rows, ([[(1 : ℚ), 2], [3, 4]]).mapM (fun v => topqRow v 1) =
        some rows ∧
      topqSelect [[(1 : ℚ), 2], [3, 4]] 1 = some (unionAll rows) ∧
      1 ≤ (unionAll rows).length ∧
      (unionAll rows).length ≤
        min 2 (1 * ([[(1 : ℚ), 2], [3, 4]]).length) :=
  topq_union_size [[1, 2], [3, 4]] 2 1 (by norm_num)
    (by intro v hv; simp at hv; rcases hv with rfl | rfl <;> rfl)
    (by norm_num) (by norm_num)

/-! ## Claim C10 — the return value of `verify_topq` -/

theorem phase1Dists_row_length (env : TopqEnv) (s f : ℕ) :
    ∀ v ∈ phase1Dists env s f, v.length = f - s := by
  intro v hv
  unfold phase1Dists at hv
  rw [List.mem_map] at hv
  obtain ⟨j, _, rfl⟩ := hv
  rw [List.length_map, phase1Res_length]

theorem phase1Dists_length (env : TopqEnv) (s f : ℕ) :
    (phase1Dists env s f).length = env.order.length := by
  simp [phase1Dists]

theorem phase1Dists_ne_nil (env : TopqEnv) (s f : ℕ)
    (h : 1 ≤ env.order.length) : phase1Dists env s f ≠ [] := by
  intro hc
  have hl := phase1Dists_length env s f
  rw [hc] at hl
  simp at hl
  omega

theorem epochRows_eq (env : TopqEnv) (q epochs e : ℕ) (hq : 1 ≤ q)
    (hn : q ≤ epochEnd env.seq.length epochs env.saveFreq e -
      epochStart env.seq.length epochs env.saveFreq e) :
    epochRows env q epochs e =
      (phase1Dists env (epochStart env.seq.length epochs env.saveFreq e)
        (epochEnd env.seq.length epochs env.saveFreq e)).map
        fun v => (argsortDesc v).take q := by
  unfold epochRows
  apply List.map_congr_left
  intro v hv
  rw [topqRow_eq v q hq
    (by rw [phase1Dists_row_length env _ _ v hv]; exact hn)]
  rfl

theorem union1d_ne_nil (a b : List ℕ) (ha : a ≠ []) : union1d a b ≠ [] := by
  intro h
  obtain ⟨x, t, rfl⟩ := List.exists_cons_of_ne_nil ha
  have hx : x ∈ (union1d (x :: t) b).toFinset := by
    rw [union1d_toFinset]
    simp
  rw [h] at hx
  simp at hx

theorem foldl_union1d_ne_nil (rs : List (List ℕ)) (r : List ℕ)
    (hr : r ≠ []) : rs.foldl union1d r ≠ [] := by
  induction rs generalizing r with
  | nil => exact hr
  | cons b bs ih => exact ih _ (union1d_ne_nil r b hr)

theorem lastRes_of_ne_nil (items : List (List ℚ))
    (res : List (ℚ ⊕ List (List ℚ))) (h : items ≠ []) :
    lastRes items res = (items.getLastD []).map Sum.inl := by
  unfold lastRes
  rw [if_neg (by simpa using h)]

theorem epochBody_ok (env : TopqEnv) (q epochs e : ℕ)
    (res : List (ℚ ⊕ List (List ℚ)))
    (hord : 2 ≤ env.order.length) (hq : 1 ≤ q)
    (hn : q ≤ epochEnd env.seq.length epochs env.saveFreq e -
      epochStart env.seq.length epochs env.saveFreq e) :
    epochBody env q epochs res e =
      .ok (((epochP2 env q epochs e).getLastD []).map Sum.inl ++
        [Sum.inr (distMatrix env.order.length (epochP2 env q epochs e))]) := by
  have hmap : (phase1Dists env (epochStart env.seq.length epochs env.saveFreq e)
      (epochEnd env.seq.length epochs env.saveFreq e)).mapM
      (fun v => topqRow v q) = some (epochRows env q epochs e) := by
    rw [epochRows_eq env q epochs e hq hn]
    exact mapM_option_some _ _ _ (fun v hv => topqRow_eq v q hq
      (by rw [phase1Dists_row_length env _ _ v hv]; exact hn))
  have hrows0 : ∃ r0 rest, epochRows env q epochs e = r0 :: rest ∧ r0 ≠ [] := by
    rw [epochRows_eq env q epochs e hq hn]
    obtain ⟨v0, vs, hcons⟩ := List.exists_cons_of_ne_nil
      (phase1Dists_ne_nil env (epochStart env.seq.length epochs env.saveFreq e)
        (epochEnd env.seq.length epochs env.saveFreq e) (by omega))
    rw [hcons, List.map_cons]
    refine ⟨_, _, rfl, ?_⟩
    intro hcnil
    have hl := topqRow_take_length v0 q (by
      rw [phase1Dists_row_length env _ _ v0 (by rw [hcons]; simp)]
      exact hn)
    rw [hcnil] at hl
    simp at hl
    omega
  obtain ⟨r0, rest, hrows, hr0⟩ := hrows0
  have hune : unionAll (epochRows env q epochs e) ≠ [] := by
    rw [hrows]
    exact foldl_union1d_ne_nil rest r0 hr0
  have hp2ne : epochP2 env q epochs e ≠ [] := by
    unfold epochP2
    simp only [ne_eq, List.map_eq_nil_iff]
    exact hune
  simp only [epochBody]
  split
  · rename_i heq
    rw [hmap] at heq
    cases heq
  · rename_i rows heq
    rw [hmap] at heq
    injection heq with heq
    subst heq
    rw [if_pos (by omega)]
    rw [lastRes_of_ne_nil _ _ (by exact hp2ne)]
    rfl

theorem foldlM_range_ok {β : Type} (f : β → ℕ → Except String β)
    (g : ℕ → β) (n : ℕ) (hf : ∀ res e, e < n → f res e = .ok (g e))
    (init : β) :
    (List.range n).foldlM f init =
      .ok (if n = 0 then init else g (n - 1)) := by
  induction n with
  | zero => rfl
  | succ n ih =>
    rw [List.range_succ, List.foldlM_append,
      ih (fun res e he => hf res e (by omega))]
    have hfn := hf (if n = 0 then init else g (n - 1)) n (by omega)
    simp only [List.foldlM_cons, List.foldlM_nil, hfn]
    show Except.bind (Except.ok (if n = 0 then init else g (n - 1)))
      (fun b => f b n >>= fun b => pure b) = Except.ok (g n)
    simp [Except.bind, hfn]

/-- Claim C10: on a multi-metric success run, the value returned by
`verify_topq` is not one Phase-2 distance matrix per epoch — it is the last
per-metric `parameter_distance` result produced (the final epoch's last deep
check), with only the final epoch's Phase-2 distance matrix appended, since
the accumulator `res` is overwritten inside both loops before
`res.append(dist_list)` runs. -/
theorem verify_topq_return_value (env : TopqEnv) (threshold : List ℚ)
    (epochs q : ℕ) (hord : 2 ≤ env.order.length)
    (hthr : env.order.length = threshold.length) (hepochs : 1 ≤ epochs)
    (hq : 1 ≤ q)
    (hn : ∀ e, e < epochs →
      q ≤ epochEnd env.seq.length epochs env.saveFreq e -
        epochStart env.seq.length epochs env.saveFreq e) :
    verify_topq true env threshold epochs q =
      .ok (((epochP2 env q epochs (epochs - 1)).getLastD []).map Sum.inl ++
        [Sum.inr (distMatrix env.order.length
          (epochP2 env q epochs (epochs - 1)))]) := by
  unfold verify_topq
  rw [if_neg (by simp), if_neg (not_not_intro hthr)]
  rw [foldlM_range_ok (epochBody env q epochs)
    (fun e => ((epochP2 env q epochs e).getLastD []).map Sum.inl ++
      [Sum.inr (distMatrix env.order.length (epochP2 env q epochs e))])
    epochs
    (fun res e he => epochBody_ok env q epochs e res hord hq (hn e he)) []]
  rw [if_neg (by omega)]

/-- Witness for C10: the two-metric scenario `cEnvTwo` with a single epoch
and `q = 1`. -/
theorem verify_topq_return_value_witness :
    verify_topq true cEnvTwo [1, 1] 1 1 =
      .ok (((epochP2 cEnvTwo 1 1 0).getLastD []).map Sum.inl ++
        [Sum.inr (distMatrix cEnvTwo.order.length (epochP2 cEnvTwo 1 1 0))]) :=
  verify_topq_return_value cEnvTwo [1, 1] 1 1 (by simp [cEnvTwo]) rfl
    (by norm_num) (by norm_num)
    (by
      intro e he
      have he0 : e = 0 := by omega
      subst he0
      simp [cEnvTwo, epochEnd, epochStart, ckptPerEpoch, roundHalfEven])
